import Mathlib

/-!
Verification of the slot-resolution core of `solana-block-finder`
(`src/main.rs`), via a shallow embedding.

Modelling conventions:
* The per-slot `getBlockTime` outcome of the RPC gateway is a pure oracle
  `Chain : Nat → BTR` with three results, matching the three arms the
  resolver distinguishes: `Ok(Some t)` (`.avail t`), `Ok(None)`
  (`.missing`), `Err(_)` (`.error`).  Network nondeterminism is outside
  the claims considered: every RPC call to the same slot returns the
  same outcome, as the in-scope properties quantify over fixed fixtures.
* Slots are `Nat`; timestamps are `Int` (idealised `i64`: the arithmetic
  the resolver performs on timestamps cannot overflow for realistic
  epoch-second inputs).  `i64::MAX` (the initial `closest_time_diff`)
  is the literal `iMAX`; `.abs()` on `i64` is `Int.natAbs`.
* `u64` subtraction wraps in release builds.  The two subtraction sites
  that can actually be reached with a zero operand (`high_slot =
  mid_slot - 1` and `high_slot = found_slot - 1`) are modelled with the
  explicit wrapping decrement `wsub1` (mod `2^64`).  The increments
  (`mid_slot + 1`, `found_slot + 1`, `current_slot + offset`, …) cannot
  overflow from any `u64`-representable state reachable in the runs the
  claims quantify over, and are modelled as plain `Nat` addition.
* The unbounded `while low_slot <= high_slot` loop is given explicit
  fuel; exhausting the fuel yields the distinguished result `.noFuel`,
  which no claim counts as "returning".
-/

set_option maxRecDepth 4000

/-- Outcome of one `get_block_time` call as the resolver sees it:
`Ok(Some t)`, `Ok(None)`, or `Err(_)` (`src/main.rs:60-125`). -/
inductive BTR
  | avail (t : Int)
  | missing
  | error
deriving DecidableEq, Repr

/-- A chain fixture: the fixed `getBlockTime` outcome for each slot. -/
abbrev Chain := Nat → BTR

/-- The parsed JSON-RPC reply for `getBlockTime` (`src/main.rs:11-23,248`):
`result : Option<Option<i64>>` plus the code of the error object, when any. -/
structure RpcReply where
  result : Option (Option Int)
  errorCode : Option Int
deriving DecidableEq, Repr

/-- Translation of a parsed reply by `get_block_time` (`src/main.rs:250-261`):
a present result is returned as is; with no result, error code `-32009`
("block not available") and a missing error object both mean `Ok(None)`;
any other error code is surfaced as `Err`. -/
def get_block_time (r : RpcReply) : BTR :=
  match r.result with
  | some (some t) => .avail t
  | some none => .missing
  | none =>
    match r.errorCode with
    | some c => if c = -32009 then .missing else .error
    | none => .missing

/-- Constant `i64::MAX`, the initial `closest_time_diff` (`src/main.rs:53`). -/
def iMAX : Int := 9223372036854775807

/-- Constant `2^64`, the `u64` modulus. -/
def U64MOD : Nat := 18446744073709551616

/-- Wrapping `u64` decrement: `x - 1` with release-mode wrap-around at 0. -/
def wsub1 (x : Nat) : Nat := if x = 0 then U64MOD - 1 else x - 1

/-- Best-candidate update of the resolver for a timed midpoint
(`src/main.rs:72-79`).  `cs`/`cd` are `closest_slot`/`closest_time_diff`,
`s` is the observed slot and `d = block_time - target_timestamp`. -/
def choose_better (cs : Nat) (cd : Int) (s : Nat) (d : Int) : Nat × Int :=
  if d < 0 ∧ (d.natAbs < cd.natAbs ∨ 0 < cd) then (s, d)
  else if 0 < d ∧ d < (cd.natAbs : Int) ∧ cd < 0 then (s, d)
  else (cs, cd)

/-- Best-candidate update of the resolver for a probe-found slot
(`src/main.rs:109-113`); unlike `choose_better` it has no
after-target arm. -/
def probe_update (cs : Nat) (cd : Int) (s : Nat) (d : Int) : Nat × Int :=
  if d < 0 ∧ (d.natAbs < cd.natAbs ∨ 0 < cd) then (s, d) else (cs, cd)

/-- Slots probed by the parallel neighbour lookup for offsets `1..=k`
(`src/main.rs:174-182`): for each offset, `center - offset` when
non-negative, then `center + offset`. -/
def probeSlotsAux (center : Nat) : Nat → List Nat
  | 0 => []
  | k + 1 =>
    probeSlotsAux center k ++
      (if k + 1 ≤ center then [center - (k + 1)] else []) ++ [center + (k + 1)]

/-- The 40 (or fewer, near slot 0) slots probed around `center`
with `max_offset = 20` (`src/main.rs:170`). -/
def probeSlots (center : Nat) : List Nat := probeSlotsAux center 20

/-- Selection scan of the probe over completed lookups
(`src/main.rs:188-205`): `best`/`bd` are `best_slot`/`best_time_diff`. -/
def probeSelect (chain : Chain) (target : Int) :
    List Nat → Option (Nat × Int) → Int → Option (Nat × Int)
  | [], best, _ => best
  | s :: rest, best, bd =>
    match chain s with
    | .avail t =>
      if t - target < 0 ∧ (t - target).natAbs < bd.natAbs then
        probeSelect chain target rest (some (s, t)) (t - target)
      else if 0 < bd ∧ 0 < t - target ∧ t - target < bd then
        probeSelect chain target rest (some (s, t)) (t - target)
      else probeSelect chain target rest best bd
    | _ => probeSelect chain target rest best bd

/-- Model of `find_nearby_slot_with_timestamp_parallel` (`src/main.rs:162-208`). -/
def find_nearby_slot_with_timestamp_parallel (chain : Chain) (center : Nat)
    (target : Int) : Option (Nat × Int) :=
  probeSelect chain target (probeSlots center) none iMAX

/-- The forward scan of `find_highest_slot_with_timestamp`
(`src/main.rs:325-353`); `fuel` is `max_scan - scanned`. -/
def scanGo (chain : Chain) (target : Int) : Nat → Nat → Nat → Nat
  | 0, highest, _ => highest
  | fuel + 1, highest, cur =>
    match chain cur with
    | .avail t =>
      if t = target then scanGo chain target fuel cur (cur + 1)
      else if t > target then highest
      else scanGo chain target fuel highest (cur + 1)
    | _ => scanGo chain target fuel highest (cur + 1)

/-- Model of `find_highest_slot_with_timestamp` (`src/main.rs:310-357`):
scan forward from `start + 1` for at most `max_scan = 100` slots. -/
def find_highest_slot_with_timestamp (chain : Chain) (start : Nat)
    (target : Int) : Nat :=
  scanGo chain target 100 start (start + 1)

/-- Result of one resolution (the `Result<u64, _>` of
`get_slot_by_timestamp_optimized`): a slot, the `"Could not find a suitable block"` error,
or fuel exhaustion (the Rust loop running forever / beyond the modelled
bound). -/
inductive SR
  | found (s : Nat)
  | notFound
  | noFuel
deriving DecidableEq, Repr

/-- The backward walk of `src/main.rs:146-156`, called with
`closest_slot`; checks slots `closest - 1, …, 0` in order.  `some r`
models the two `return` statements inside the loop (with the exact-match
case already composed with the forward scanner); `none` models the loop
running out at slot 0 and falling through. -/
def rewindFrom (chain : Chain) (target : Int) : Nat → Option Nat
  | 0 => none
  | s + 1 =>
    match chain s with
    | .avail t =>
      if t = target then some (find_highest_slot_with_timestamp chain s target)
      else if t < target then some s
      else rewindFrom chain target s
    | _ => rewindFrom chain target s

/-- The post-loop tail of `src/main.rs:144-159`: rewind when the best
candidate is after the target, otherwise return it directly. -/
def rewindPhase (chain : Chain) (target : Int) (closest : Nat)
    (cdiff : Int) : SR :=
  if 0 < cdiff then
    match rewindFrom chain target closest with
    | some s => .found s
    | none => .found closest
  else .found closest

/-- The whole post-loop phase of `src/main.rs:132-159`: the
`closest_slot == 0` check, the exact-match re-check of the best
candidate, then `rewindPhase`. -/
def finishSearch (chain : Chain) (target : Int) (closest : Nat)
    (cdiff : Int) : SR :=
  if closest = 0 then .notFound
  else
    match chain closest with
    | .avail t =>
      if t = target then
        .found (find_highest_slot_with_timestamp chain closest target)
      else rewindPhase chain target closest cdiff
    | _ => rewindPhase chain target closest cdiff

/-- The binary-search loop state (`src/main.rs:50-53`):
`low_slot`, `high_slot`, `closest_slot`, `closest_time_diff`. -/
structure SearchState where
  low : Nat
  high : Nat
  closest : Nat
  cdiff : Int
deriving DecidableEq, Repr

/-- Midpoint `mid_slot = low_slot + (high_slot - low_slot) / 2` (`src/main.rs:58`). -/
def midOf (st : SearchState) : Nat := st.low + (st.high - st.low) / 2

/-- Effect of one pass through the `while` loop: continue with a new
state, return through the exact-match scanner started at a slot, or
leave the loop with the final candidate. -/
inductive StepRes
  | next (st : SearchState)
  | exactHit (slot : Nat)
  | finished (closest : Nat) (cdiff : Int)
deriving DecidableEq, Repr

/-- One iteration of the binary-search loop (`src/main.rs:57-130`),
including the loop condition check. -/
def searchStep (chain : Chain) (target : Int) (st : SearchState) : StepRes :=
  if st.low ≤ st.high then
    match chain (midOf st) with
    | .avail t =>
      if t - target = 0 then .exactHit (midOf st)
      else if t < target then
        .next ⟨midOf st + 1, st.high,
          (choose_better st.closest st.cdiff (midOf st) (t - target)).1,
          (choose_better st.closest st.cdiff (midOf st) (t - target)).2⟩
      else
        .next ⟨st.low, wsub1 (midOf st),
          (choose_better st.closest st.cdiff (midOf st) (t - target)).1,
          (choose_better st.closest st.cdiff (midOf st) (t - target)).2⟩
    | .missing =>
      match find_nearby_slot_with_timestamp_parallel chain (midOf st) target with
      | some (fs, ft) =>
        if ft = target then .exactHit fs
        else if ft < target then
          .next ⟨fs + 1, st.high,
            (probe_update st.closest st.cdiff fs (ft - target)).1,
            (probe_update st.closest st.cdiff fs (ft - target)).2⟩
        else
          .next ⟨st.low, wsub1 fs,
            (probe_update st.closest st.cdiff fs (ft - target)).1,
            (probe_update st.closest st.cdiff fs (ft - target)).2⟩
      | none => .next ⟨midOf st + 1, st.high, st.closest, st.cdiff⟩
    | .error => .next ⟨midOf st + 1, st.high, st.closest, st.cdiff⟩
  else .finished st.closest st.cdiff

/-- The binary-search loop with explicit fuel; an `exactHit` returns the
result of the forward scanner (`src/main.rs:69,98`), loop exit runs the
post-loop phase. -/
def searchLoop (chain : Chain) (target : Int) : Nat → SearchState → SR
  | 0, _ => .noFuel
  | fuel + 1, st =>
    match searchStep chain target st with
    | .next st2 => searchLoop chain target fuel st2
    | .exactHit s => .found (find_highest_slot_with_timestamp chain s target)
    | .finished c cd => finishSearch chain target c cd

/-- Model of `get_slot_by_timestamp_optimized` (`src/main.rs:44-160`), with the
bootstrapped current slot passed in (a failing `get_current_slot` is the
`Upstream` error, outside this model). -/
def get_slot_by_timestamp_optimized (chain : Chain) (current : Nat)
    (target : Int) (fuel : Nat) : SR :=
  searchLoop chain target fuel ⟨0, current, 0, iMAX⟩

/-- Outcome of the post-parse logic of `main`. -/
inductive MainRes
  | invalidInput
  | resolved (s : Nat)
  | notFound
  | noFuel
deriving DecidableEq, Repr

/-- Model of `main` after argument parsing (`src/main.rs:444-469`): the wall-clock
check `target_timestamp > current_time` precedes the HTTP client build
and every gateway call; only then is the resolver run. -/
def run_main (chain : Chain) (current : Nat) (now target : Int)
    (fuel : Nat) : MainRes :=
  if target > now then .invalidInput
  else
    match get_slot_by_timestamp_optimized chain current target fuel with
    | .found s => .resolved s
    | .notFound => .notFound
    | .noFuel => .noFuel

/-- A fully-present chain fixture: every slot reports a timestamp. -/
def fullChain (f : Nat → Int) : Chain := fun s => .avail (f s)

/-- Fixture: slots `0..5` present with times `10..15`, rest missing. -/
def chainW : Chain := fun s => if s ≤ 5 then .avail (10 + s) else .missing

/-- Fixture for Scenario B: slots `700..705` all report time `2000`,
slot `706` reports `2001`, all other slots missing. -/
def chainB : Chain := fun s =>
  if 700 ≤ s ∧ s ≤ 705 then .avail 2000
  else if s = 706 then .avail 2001 else .missing

/-- Fixture: slot 70 has time 10, slot 90 has time 100, rest missing. -/
def chainF : Chain := fun s =>
  if s = 70 then .avail 10 else if s = 90 then .avail 100 else .missing

/-- Fixture: only slot 9 present, with time 200. -/
def chainG : Chain := fun s => if s = 9 then .avail 200 else .missing

/-- Fixture: slots 70, 71, 72 have time 10, slot 90 has time 100,
rest missing. -/
def chainH : Chain := fun s =>
  if s = 70 ∨ s = 71 ∨ s = 72 then .avail 10
  else if s = 90 then .avail 100 else .missing

/-- Fixture: slot 0 has time 50, slot 1 has time 200, rest missing. -/
def chainC4 : Chain := fun s =>
  if s = 0 then .avail 50 else if s = 1 then .avail 200 else .missing

/-- Fixture: only slot 4 present, with time 100. -/
def chainC5 : Chain := fun s => if s = 4 then .avail 100 else .missing

/-- Fixture: only slot 0 present, with time 10. -/
def chainC10 : Chain := fun s => if s = 0 then .avail 10 else .missing

/-- The strictly-increasing fully-present fixture with time = slot number. -/
def idChain : Chain := fullChain fun s => (s : Int)

/-! ### Helper lemmas about the candidate updates -/

theorem choose_better_cases (cs : Nat) (cd : Int) (s : Nat) (d : Int) :
    choose_better cs cd s d = (s, d) ∨ choose_better cs cd s d = (cs, cd) := by
  unfold choose_better
  split_ifs <;> simp

theorem probe_update_cases (cs : Nat) (cd : Int) (s : Nat) (d : Int) :
    probe_update cs cd s d = (s, d) ∨ probe_update cs cd s d = (cs, cd) := by
  unfold probe_update
  split_ifs <;> simp

/-! ### Helper lemmas about the neighbour probe -/

theorem probeSelect_avail (chain : Chain) (target : Int) :
    ∀ (l : List Nat) (best : Option (Nat × Int)) (bd : Int) (s : Nat) (t : Int),
      (∀ s2 t2, best = some (s2, t2) → chain s2 = BTR.avail t2 ∧ t2 ≠ target) →
      probeSelect chain target l best bd = some (s, t) →
      chain s = BTR.avail t ∧ t ≠ target := by
  intro l
  induction l with
  | nil =>
    intro best bd s t hbest h
    simp only [probeSelect] at h
    exact hbest s t h
  | cons a rest ih =>
    intro best bd s t hbest h
    cases ha : chain a with
    | avail t0 =>
      simp only [probeSelect, ha] at h
      split_ifs at h with h1 h2
      · refine ih _ _ s t ?_ h
        intro s2 t2 he
        simp only [Option.some.injEq, Prod.mk.injEq] at he
        obtain ⟨rfl, rfl⟩ := he
        exact ⟨ha, by omega⟩
      · refine ih _ _ s t ?_ h
        intro s2 t2 he
        simp only [Option.some.injEq, Prod.mk.injEq] at he
        obtain ⟨rfl, rfl⟩ := he
        exact ⟨ha, by omega⟩
      · exact ih _ _ s t hbest h
    | missing =>
      simp only [probeSelect, ha] at h
      exact ih _ _ s t hbest h
    | error =>
      simp only [probeSelect, ha] at h
      exact ih _ _ s t hbest h

theorem probeSelect_mem (chain : Chain) (target : Int) :
    ∀ (l : List Nat) (best : Option (Nat × Int)) (bd : Int) (s : Nat) (t : Int),
      probeSelect chain target l best bd = some (s, t) →
      best = some (s, t) ∨ s ∈ l := by
  intro l
  induction l with
  | nil =>
    intro best bd s t h
    simp only [probeSelect] at h
    exact Or.inl h
  | cons a rest ih =>
    intro best bd s t h
    cases ha : chain a with
    | avail t0 =>
      simp only [probeSelect, ha] at h
      split_ifs at h with h1 h2
      · rcases ih _ _ s t h with he | hm
        · simp only [Option.some.injEq, Prod.mk.injEq] at he
          exact Or.inr (by rw [← he.1]; exact List.mem_cons_self a rest)
        · exact Or.inr (List.mem_cons_of_mem a hm)
      · rcases ih _ _ s t h with he | hm
        · simp only [Option.some.injEq, Prod.mk.injEq] at he
          exact Or.inr (by rw [← he.1]; exact List.mem_cons_self a rest)
        · exact Or.inr (List.mem_cons_of_mem a hm)
      · rcases ih _ _ s t h with he | hm
        · exact Or.inl he
        · exact Or.inr (List.mem_cons_of_mem a hm)
    | missing =>
      simp only [probeSelect, ha] at h
      rcases ih _ _ s t h with he | hm
      · exact Or.inl he
      · exact Or.inr (List.mem_cons_of_mem a hm)
    | error =>
      simp only [probeSelect, ha] at h
      rcases ih _ _ s t h with he | hm
      · exact Or.inl he
      · exact Or.inr (List.mem_cons_of_mem a hm)

theorem probeSelect_none (chain : Chain) (target : Int) :
    ∀ (l : List Nat) (bd : Int),
      (∀ s t, s ∈ l → chain s = BTR.avail t → t = target) →
      probeSelect chain target l none bd = none := by
  intro l
  induction l with
  | nil =>
    intro bd _
    simp [probeSelect]
  | cons a rest ih =>
    intro bd hall
    cases ha : chain a with
    | avail t0 =>
      have ht0 : t0 = target := hall a t0 (List.mem_cons_self a rest) ha
      have hz : t0 - target = 0 := by omega
      simp only [probeSelect, ha, hz]
      rw [if_neg (by simp), if_neg (by simp)]
      exact ih bd fun s t hs => hall s t (List.mem_cons_of_mem a hs)
    | missing =>
      simp only [probeSelect, ha]
      exact ih bd fun s t hs => hall s t (List.mem_cons_of_mem a hs)
    | error =>
      simp only [probeSelect, ha]
      exact ih bd fun s t hs => hall s t (List.mem_cons_of_mem a hs)

theorem mem_probeSlotsAux_le (center : Nat) :
    ∀ k s, s ∈ probeSlotsAux center k → s ≤ center + k := by
  intro k
  induction k with
  | zero =>
    intro s h
    simp [probeSlotsAux] at h
  | succ k ih =>
    intro s h
    simp only [probeSlotsAux, List.mem_append] at h
    rcases h with (h | h) | h
    · exact le_trans (ih s h) (by omega)
    · by_cases hc : k + 1 ≤ center
      · rw [if_pos hc] at h
        simp only [List.mem_singleton] at h
        omega
      · rw [if_neg hc] at h
        simp at h
    · simp only [List.mem_singleton] at h
      omega

theorem find_nearby_sound (chain : Chain) (center : Nat) (target : Int)
    (s : Nat) (t : Int)
    (h : find_nearby_slot_with_timestamp_parallel chain center target
          = some (s, t)) :
    chain s = BTR.avail t ∧ t ≠ target ∧ s ∈ probeSlots center := by
  simp only [find_nearby_slot_with_timestamp_parallel] at h
  have h1 := probeSelect_avail chain target (probeSlots center) none iMAX s t
    (by intro s2 t2 he; exact Option.noConfusion he) h
  have h2 := probeSelect_mem chain target (probeSlots center) none iMAX s t h
  rcases h2 with he | hm
  · exact Option.noConfusion he
  · exact ⟨h1.1, h1.2, hm⟩

theorem find_nearby_none_of_no_offtarget (chain : Chain) (center : Nat)
    (target : Int)
    (hall : ∀ s t, s ∈ probeSlots center → chain s = BTR.avail t → t = target) :
    find_nearby_slot_with_timestamp_parallel chain center target = none := by
  simp only [find_nearby_slot_with_timestamp_parallel]
  exact probeSelect_none chain target (probeSlots center) iMAX hall

/-! ### Helper lemmas about the forward scanner -/

theorem scanGo_avail (chain : Chain) (target : Int) :
    ∀ (fuel highest cur : Nat), chain highest = BTR.avail target →
      chain (scanGo chain target fuel highest cur) = BTR.avail target := by
  intro fuel
  induction fuel with
  | zero =>
    intro highest cur h
    simpa [scanGo] using h
  | succ fuel ih =>
    intro highest cur h
    cases hc : chain cur with
    | avail t =>
      simp only [scanGo, hc]
      split_ifs with h1 h2
      · exact ih cur (cur + 1) (h1 ▸ hc)
      · exact h
      · exact ih highest (cur + 1) h
    | missing =>
      simp only [scanGo, hc]
      exact ih highest (cur + 1) h
    | error =>
      simp only [scanGo, hc]
      exact ih highest (cur + 1) h

theorem find_highest_avail (chain : Chain) (start : Nat) (target : Int)
    (h : chain start = BTR.avail target) :
    chain (find_highest_slot_with_timestamp chain start target)
      = BTR.avail target := by
  simp only [find_highest_slot_with_timestamp]
  exact scanGo_avail chain target 100 start (start + 1) h

/-! ### Helper lemmas about the backward rewind -/

theorem rewindFrom_some_le (chain : Chain) (target : Int) :
    ∀ n r, rewindFrom chain target n = some r →
      ∃ t, chain r = BTR.avail t ∧ t ≤ target := by
  intro n
  induction n with
  | zero =>
    intro r h
    simp [rewindFrom] at h
  | succ n ih =>
    intro r h
    cases hc : chain n with
    | avail t =>
      simp only [rewindFrom, hc] at h
      split_ifs at h with h1 h2
      · obtain rfl : find_highest_slot_with_timestamp chain n target = r :=
          Option.some.inj h
        exact ⟨target, find_highest_avail chain n target (h1 ▸ hc), le_refl _⟩
      · obtain rfl : n = r := Option.some.inj h
        exact ⟨t, hc, le_of_lt h2⟩
      · exact ih r h
    | missing =>
      simp only [rewindFrom, hc] at h
      exact ih r h
    | error =>
      simp only [rewindFrom, hc] at h
      exact ih r h

theorem rewindFrom_none_gt (chain : Chain) (target : Int) :
    ∀ n, rewindFrom chain target n = none →
      ∀ s t, s < n → chain s = BTR.avail t → target < t := by
  intro n
  induction n with
  | zero =>
    intro _ s t hs _
    omega
  | succ n ih =>
    intro h s t hs hc
    cases hcn : chain n with
    | avail tn =>
      simp only [rewindFrom, hcn] at h
      split_ifs at h with h1 h2
      rcases Nat.lt_succ_iff_lt_or_eq.mp hs with hlt | rfl
      · exact ih h s t hlt hc
      · rw [hc] at hcn
        obtain rfl : t = tn := by
          injection hcn
        omega
    | missing =>
      simp only [rewindFrom, hcn] at h
      rcases Nat.lt_succ_iff_lt_or_eq.mp hs with hlt | rfl
      · exact ih h s t hlt hc
      · rw [hc] at hcn
        exact BTR.noConfusion hcn
    | error =>
      simp only [rewindFrom, hcn] at h
      rcases Nat.lt_succ_iff_lt_or_eq.mp hs with hlt | rfl
      · exact ih h s t hlt hc
      · rw [hc] at hcn
        exact BTR.noConfusion hcn

/-! ### Shape lemmas for one loop iteration -/

theorem searchStep_eq_done {chain : Chain} {target : Int} {st : SearchState}
    (h : ¬ st.low ≤ st.high) :
    searchStep chain target st = .finished st.closest st.cdiff := by
  simp [searchStep, h]

theorem searchStep_eq_avail_eq {chain : Chain} {target : Int}
    {st : SearchState} {t : Int} (hlh : st.low ≤ st.high)
    (hm : chain (midOf st) = .avail t) (he : t = target) :
    searchStep chain target st = .exactHit (midOf st) := by
  simp only [searchStep, hm, if_pos hlh]
  rw [if_pos (by omega : t - target = 0)]

theorem searchStep_eq_avail_lt {chain : Chain} {target : Int}
    {st : SearchState} {t : Int} (hlh : st.low ≤ st.high)
    (hm : chain (midOf st) = .avail t) (hne : t ≠ target) (hlt : t < target) :
    searchStep chain target st =
      .next ⟨midOf st + 1, st.high,
        (choose_better st.closest st.cdiff (midOf st) (t - target)).1,
        (choose_better st.closest st.cdiff (midOf st) (t - target)).2⟩ := by
  simp only [searchStep, hm, if_pos hlh]
  rw [if_neg (by omega : ¬ t - target = 0), if_pos hlt]

theorem searchStep_eq_avail_gt {chain : Chain} {target : Int}
    {st : SearchState} {t : Int} (hlh : st.low ≤ st.high)
    (hm : chain (midOf st) = .avail t) (hne : t ≠ target) (hge : ¬ t < target) :
    searchStep chain target st =
      .next ⟨st.low, wsub1 (midOf st),
        (choose_better st.closest st.cdiff (midOf st) (t - target)).1,
        (choose_better st.closest st.cdiff (midOf st) (t - target)).2⟩ := by
  simp only [searchStep, hm, if_pos hlh]
  rw [if_neg (by omega : ¬ t - target = 0), if_neg hge]

theorem searchStep_eq_missing_none {chain : Chain} {target : Int}
    {st : SearchState} (hlh : st.low ≤ st.high)
    (hm : chain (midOf st) = .missing)
    (hp : find_nearby_slot_with_timestamp_parallel chain (midOf st) target
          = none) :
    searchStep chain target st =
      .next ⟨midOf st + 1, st.high, st.closest, st.cdiff⟩ := by
  simp only [searchStep, hm, hp, if_pos hlh]

theorem searchStep_eq_missing_some_eq {chain : Chain} {target : Int}
    {st : SearchState} {fs : Nat} {ft : Int} (hlh : st.low ≤ st.high)
    (hm : chain (midOf st) = .missing)
    (hp : find_nearby_slot_with_timestamp_parallel chain (midOf st) target
          = some (fs, ft))
    (he : ft = target) :
    searchStep chain target st = .exactHit fs := by
  simp only [searchStep, hm, hp, if_pos hlh]
  rw [if_pos he]

theorem searchStep_eq_missing_some_lt {chain : Chain} {target : Int}
    {st : SearchState} {fs : Nat} {ft : Int} (hlh : st.low ≤ st.high)
    (hm : chain (midOf st) = .missing)
    (hp : find_nearby_slot_with_timestamp_parallel chain (midOf st) target
          = some (fs, ft))
    (hne : ft ≠ target) (hlt : ft < target) :
    searchStep chain target st =
      .next ⟨fs + 1, st.high,
        (probe_update st.closest st.cdiff fs (ft - target)).1,
        (probe_update st.closest st.cdiff fs (ft - target)).2⟩ := by
  simp only [searchStep, hm, hp, if_pos hlh]
  rw [if_neg hne, if_pos hlt]

theorem searchStep_eq_missing_some_gt {chain : Chain} {target : Int}
    {st : SearchState} {fs : Nat} {ft : Int} (hlh : st.low ≤ st.high)
    (hm : chain (midOf st) = .missing)
    (hp : find_nearby_slot_with_timestamp_parallel chain (midOf st) target
          = some (fs, ft))
    (hne : ft ≠ target) (hge : ¬ ft < target) :
    searchStep chain target st =
      .next ⟨st.low, wsub1 fs,
        (probe_update st.closest st.cdiff fs (ft - target)).1,
        (probe_update st.closest st.cdiff fs (ft - target)).2⟩ := by
  simp only [searchStep, hm, hp, if_pos hlh]
  rw [if_neg hne, if_neg hge]

theorem searchStep_eq_error {chain : Chain} {target : Int}
    {st : SearchState} (hlh : st.low ≤ st.high)
    (hm : chain (midOf st) = .error) :
    searchStep chain target st =
      .next ⟨midOf st + 1, st.high, st.closest, st.cdiff⟩ := by
  simp only [searchStep, hm, if_pos hlh]

/-! ### The candidate invariant of the binary-search loop -/

theorem searchStep_next_inv {chain : Chain} {target : Int}
    {st st2 : SearchState}
    (h : searchStep chain target st = .next st2)
    (hinv : st.closest = 0 ∨ chain st.closest = BTR.avail (target + st.cdiff)) :
    st2.closest = 0 ∨ chain st2.closest = BTR.avail (target + st2.cdiff) := by
  by_cases hlh : st.low ≤ st.high
  · cases hm : chain (midOf st) with
    | avail t =>
      by_cases he : t = target
      · rw [searchStep_eq_avail_eq hlh hm he] at h
        exact StepRes.noConfusion h
      · by_cases hlt : t < target
        · rw [searchStep_eq_avail_lt hlh hm he hlt] at h
          cases h
          rcases choose_better_cases st.closest st.cdiff (midOf st)
              (t - target) with hcb | hcb <;> rw [hcb]
          · right
            have harith : target + (t - target) = t := by ring
            rw [harith]
            exact hm
          · exact hinv
        · rw [searchStep_eq_avail_gt hlh hm he hlt] at h
          cases h
          rcases choose_better_cases st.closest st.cdiff (midOf st)
              (t - target) with hcb | hcb <;> rw [hcb]
          · right
            have harith : target + (t - target) = t := by ring
            rw [harith]
            exact hm
          · exact hinv
    | missing =>
      cases hp : find_nearby_slot_with_timestamp_parallel chain (midOf st)
          target with
      | none =>
        rw [searchStep_eq_missing_none hlh hm hp] at h
        cases h
        exact hinv
      | some p =>
        obtain ⟨fs, ft⟩ := p
        by_cases he : ft = target
        · rw [searchStep_eq_missing_some_eq hlh hm hp he] at h
          exact StepRes.noConfusion h
        · by_cases hlt : ft < target
          · rw [searchStep_eq_missing_some_lt hlh hm hp he hlt] at h
            cases h
            rcases probe_update_cases st.closest st.cdiff fs
                (ft - target) with hpu | hpu <;> rw [hpu]
            · right
              have harith : target + (ft - target) = ft := by ring
              rw [harith]
              exact (find_nearby_sound chain (midOf st) target fs ft hp).1
            · exact hinv
          · rw [searchStep_eq_missing_some_gt hlh hm hp he hlt] at h
            cases h
            rcases probe_update_cases st.closest st.cdiff fs
                (ft - target) with hpu | hpu <;> rw [hpu]
            · right
              have harith : target + (ft - target) = ft := by ring
              rw [harith]
              exact (find_nearby_sound chain (midOf st) target fs ft hp).1
            · exact hinv
    | error =>
      rw [searchStep_eq_error hlh hm] at h
      cases h
      exact hinv
  · rw [searchStep_eq_done hlh] at h
    exact StepRes.noConfusion h

theorem searchStep_exact_avail {chain : Chain} {target : Int}
    {st : SearchState} {s : Nat}
    (h : searchStep chain target st = .exactHit s) :
    chain s = BTR.avail target := by
  by_cases hlh : st.low ≤ st.high
  · cases hm : chain (midOf st) with
    | avail t =>
      by_cases he : t = target
      · rw [searchStep_eq_avail_eq hlh hm he] at h
        cases h
        exact he ▸ hm
      · by_cases hlt : t < target
        · rw [searchStep_eq_avail_lt hlh hm he hlt] at h
          exact StepRes.noConfusion h
        · rw [searchStep_eq_avail_gt hlh hm he hlt] at h
          exact StepRes.noConfusion h
    | missing =>
      cases hp : find_nearby_slot_with_timestamp_parallel chain (midOf st)
          target with
      | none =>
        rw [searchStep_eq_missing_none hlh hm hp] at h
        exact StepRes.noConfusion h
      | some p =>
        obtain ⟨fs, ft⟩ := p
        by_cases he : ft = target
        · rw [searchStep_eq_missing_some_eq hlh hm hp he] at h
          cases h
          exact he ▸ (find_nearby_sound chain (midOf st) target _ _ hp).1
        · by_cases hlt : ft < target
          · rw [searchStep_eq_missing_some_lt hlh hm hp he hlt] at h
            exact StepRes.noConfusion h
          · rw [searchStep_eq_missing_some_gt hlh hm hp he hlt] at h
            exact StepRes.noConfusion h
    | error =>
      rw [searchStep_eq_error hlh hm] at h
      exact StepRes.noConfusion h
  · rw [searchStep_eq_done hlh] at h
    exact StepRes.noConfusion h

theorem searchStep_finished_elim {chain : Chain} {target : Int}
    {st : SearchState} {c : Nat} {cd : Int}
    (h : searchStep chain target st = .finished c cd) :
    ¬ st.low ≤ st.high ∧ c = st.closest ∧ cd = st.cdiff := by
  by_cases hlh : st.low ≤ st.high
  · exfalso
    cases hm : chain (midOf st) with
    | avail t =>
      by_cases he : t = target
      · rw [searchStep_eq_avail_eq hlh hm he] at h
        exact StepRes.noConfusion h
      · by_cases hlt : t < target
        · rw [searchStep_eq_avail_lt hlh hm he hlt] at h
          exact StepRes.noConfusion h
        · rw [searchStep_eq_avail_gt hlh hm he hlt] at h
          exact StepRes.noConfusion h
    | missing =>
      cases hp : find_nearby_slot_with_timestamp_parallel chain (midOf st)
          target with
      | none =>
        rw [searchStep_eq_missing_none hlh hm hp] at h
        exact StepRes.noConfusion h
      | some p =>
        obtain ⟨fs, ft⟩ := p
        by_cases he : ft = target
        · rw [searchStep_eq_missing_some_eq hlh hm hp he] at h
          exact StepRes.noConfusion h
        · by_cases hlt : ft < target
          · rw [searchStep_eq_missing_some_lt hlh hm hp he hlt] at h
            exact StepRes.noConfusion h
          · rw [searchStep_eq_missing_some_gt hlh hm hp he hlt] at h
            exact StepRes.noConfusion h
    | error =>
      rw [searchStep_eq_error hlh hm] at h
      exact StepRes.noConfusion h
  · rw [searchStep_eq_done hlh] at h
    injection h with h1 h2
    exact ⟨hlh, h1.symm, h2.symm⟩

/-! ### Soundness of the post-loop phase and of the whole resolver -/

theorem finishSearch_sound {chain : Chain} {target : Int} {c : Nat}
    {cd : Int} {r : Nat}
    (hmono : ∀ a b ta tb, a ≤ b → chain a = BTR.avail ta →
      chain b = BTR.avail tb → ta ≤ tb)
    (hinv : c = 0 ∨ chain c = BTR.avail (target + cd))
    (h : finishSearch chain target c cd = .found r) :
    (∃ t, chain r = BTR.avail t ∧ t ≤ target) ∨
    (∀ s2 t2, chain s2 = BTR.avail t2 → target < t2) := by
  by_cases hc0 : c = 0
  · rw [finishSearch, if_pos hc0] at h
    exact SR.noConfusion h
  · have hc : chain c = BTR.avail (target + cd) := hinv.resolve_left hc0
    rw [finishSearch, if_neg hc0] at h
    simp only [hc] at h
    by_cases he : target + cd = target
    · rw [if_pos he] at h
      injection h with hr
      subst hr
      exact Or.inl ⟨target, find_highest_avail chain c target (he ▸ hc), le_refl _⟩
    · rw [if_neg he] at h
      rw [rewindPhase] at h
      by_cases hpos : 0 < cd
      · rw [if_pos hpos] at h
        cases hrw : rewindFrom chain target c with
        | some s =>
          rw [hrw] at h
          injection h with hr
          subst hr
          exact Or.inl (rewindFrom_some_le chain target c s hrw)
        | none =>
          rw [hrw] at h
          injection h with hr
          subst hr
          refine Or.inr fun s2 t2 h2 => ?_
          rcases lt_or_ge s2 c with hlt | hge
          · exact rewindFrom_none_gt chain target c hrw s2 t2 hlt h2
          · have := hmono c s2 (target + cd) t2 hge hc h2
            omega
      · rw [if_neg hpos] at h
        injection h with hr
        subst hr
        exact Or.inl ⟨target + cd, hc, by omega⟩

theorem searchLoop_found_sound {chain : Chain} {target : Int}
    (hmono : ∀ a b ta tb, a ≤ b → chain a = BTR.avail ta →
      chain b = BTR.avail tb → ta ≤ tb) :
    ∀ (fuel : Nat) (st : SearchState) (r : Nat),
      (st.closest = 0 ∨ chain st.closest = BTR.avail (target + st.cdiff)) →
      searchLoop chain target fuel st = .found r →
      (∃ t, chain r = BTR.avail t ∧ t ≤ target) ∨
      (∀ s2 t2, chain s2 = BTR.avail t2 → target < t2) := by
  intro fuel
  induction fuel with
  | zero =>
    intro st r _ h
    exact SR.noConfusion h
  | succ fuel ih =>
    intro st r hinv h
    rw [searchLoop] at h
    cases hstep : searchStep chain target st with
    | next st2 =>
      rw [hstep] at h
      exact ih st2 r (searchStep_next_inv hstep hinv) h
    | exactHit s =>
      rw [hstep] at h
      injection h with hr
      subst hr
      exact Or.inl ⟨target,
        find_highest_avail chain s target (searchStep_exact_avail hstep),
        le_refl _⟩
    | finished c cd =>
      rw [hstep] at h
      obtain ⟨-, hc, hcd⟩ := searchStep_finished_elim hstep
      subst hc
      subst hcd
      exact finishSearch_sound hmono hinv h

/-! ### Fixture monotonicity helpers -/

theorem chainW_mono : ∀ a b ta tb, a ≤ b → chainW a = BTR.avail ta →
    chainW b = BTR.avail tb → ta ≤ tb := by
  intro a b ta tb hab ha hb
  simp only [chainW] at ha hb
  split_ifs at ha hb with h1 h2
  injection ha with ha2
  injection hb with hb2
  omega

/-- Claim C1: for every resolution that returns a slot, the returned
returned block time is ≤ the target timestamp, unless no slot with block
time ≤ target exists below the bootstrap upper bound (stated for
monotone chain fixtures, the data-source precondition assumed by the
spec; the second disjunct in fact holds for all slots, bounded or not). -/
theorem C1_found_slot_at_or_before_target (chain : Chain) (current : Nat)
    (target : Int) (fuel : Nat) (r : Nat)
    (hmono : ∀ a b ta tb, a ≤ b → chain a = BTR.avail ta →
      chain b = BTR.avail tb → ta ≤ tb)
    (hres : get_slot_by_timestamp_optimized chain current target fuel
            = .found r) :
    (∃ t, chain r = BTR.avail t ∧ t ≤ target) ∨
    (∀ s2 t2, s2 ≤ current → chain s2 = BTR.avail t2 → target < t2) := by
  rw [get_slot_by_timestamp_optimized] at hres
  rcases searchLoop_found_sound hmono fuel ⟨0, current, 0, iMAX⟩ r
      (Or.inl rfl) hres with hl | hr2
  · exact Or.inl hl
  · exact Or.inr fun s2 t2 _ h2 => hr2 s2 t2 h2

/-- Witness for C1 on the monotone fixture `chainW` with target 12:
the resolver returns slot 2, whose time 12 is ≤ 12. -/
theorem C1_witness :
    get_slot_by_timestamp_optimized chainW 5 12 9 = SR.found 2 ∧
    ((∃ t, chainW 2 = BTR.avail t ∧ t ≤ 12) ∨
      (∀ s2 t2, s2 ≤ 5 → chainW s2 = BTR.avail t2 → (12:Int) < t2)) :=
  ⟨by decide,
   C1_found_slot_at_or_before_target chainW 5 12 9 2 chainW_mono (by decide)⟩

/-- Claim C7: if the target timestamp is strictly in the future, `main`
fails with the invalid-input error before any gateway call — the outcome
is `invalidInput` for every oracle and every bootstrap slot, so no RPC
response can influence it. -/
theorem C7_future_target_rejected_before_rpc (chain : Chain) (current : Nat)
    (now target : Int) (fuel : Nat) (h : now < target) :
    run_main chain current now target fuel = .invalidInput := by
  rw [run_main, if_pos (by omega : target > now)]

/-- Witness for C7. -/
theorem C7_witness : run_main chainW 5 100 200 9 = MainRes.invalidInput :=
  C7_future_target_rejected_before_rpc chainW 5 100 200 9 (by decide)

/-- Claim C3 counterexample: with best candidate (slot 3, diff −10, i.e.
time ≤ target) and a new candidate (slot 7, diff +5, i.e. time > target),
`choose_better` picks the after-target candidate — refuting both "a
candidate with time ≤ target is preferred over any candidate with
time > target" and "time > target retained only while no time ≤ target
candidate has been observed". -/
theorem C3_counterexample :
    choose_better 3 (-10) 7 5 = (7, 5) ∧ (0:Int) < 5 ∧ (-10:Int) < 0 := by
  decide

/-- Claim C3 (amended): the actual policy of the update.  A before-target
candidate (diff < 0) is adopted iff it is strictly closer in absolute
value or the held diff is nonnegative-leaning positive (incl. the
`i64::MAX` sentinel); an after-target candidate (diff > 0) is adopted
iff the held candidate is before-target and the new diff is strictly
smaller in absolute value — so an after-target candidate can displace a
held before-target one, and an after-target candidate seen while no
before-target candidate is held is discarded. -/
theorem C3_amended_choose_better_policy (cs s : Nat) (cd d : Int) :
    (0 < d → 0 ≤ cd → choose_better cs cd s d = (cs, cd)) ∧
    (0 < d → cd < 0 → d < (cd.natAbs : Int) →
      choose_better cs cd s d = (s, d)) ∧
    (0 < d → cd < 0 → (cd.natAbs : Int) ≤ d →
      choose_better cs cd s d = (cs, cd)) ∧
    (d < 0 → 0 < cd → choose_better cs cd s d = (s, d)) ∧
    (d < 0 → cd ≤ 0 → d.natAbs < cd.natAbs →
      choose_better cs cd s d = (s, d)) ∧
    (d < 0 → cd ≤ 0 → cd.natAbs ≤ d.natAbs →
      choose_better cs cd s d = (cs, cd)) := by
  refine ⟨fun h1 h2 => ?_, fun h1 h2 h3 => ?_, fun h1 h2 h3 => ?_,
    fun h1 h2 => ?_, fun h1 h2 h3 => ?_, fun h1 h2 h3 => ?_⟩ <;>
  · unfold choose_better
    split_ifs with ha hb <;> first | rfl | omega

/-- Witness for the amended C3 policy at concrete inputs. -/
theorem C3_amended_witness :
    choose_better 1 (-10) 9 5 = (9, 5) ∧ choose_better 1 7 9 5 = (1, 7) :=
  ⟨(C3_amended_choose_better_policy 1 9 (-10) 5).2.1
      (by decide) (by decide) (by decide),
   (C3_amended_choose_better_policy 1 9 7 5).1 (by decide) (by decide)⟩

/-- Claim C5 counterexample: probing around centre 5 with target 100,
slot 4 is probed and reports time exactly 100, yet the probe returns
`None` — an exact-match probed slot is not a valid candidate for it,
and `None` does not imply every probed slot was absent or erroring. -/
theorem C5_counterexample :
    find_nearby_slot_with_timestamp_parallel chainC5 5 100 = none ∧
    chainC5 4 = BTR.avail 100 ∧ 4 ∈ probeSlots 5 := by
  decide

theorem probeSelect_some_ne_none (chain : Chain) (target : Int) :
    ∀ (l : List Nat) (p : Nat × Int) (bd : Int),
      probeSelect chain target l (some p) bd ≠ none := by
  intro l
  induction l with
  | nil =>
    intro p bd h
    simp [probeSelect] at h
  | cons a rest ih =>
    intro p bd h
    cases ha : chain a with
    | avail t0 =>
      simp only [probeSelect, ha] at h
      split_ifs at h <;> exact ih _ _ h
    | missing =>
      simp only [probeSelect, ha] at h
      exact ih _ _ h
    | error =>
      simp only [probeSelect, ha] at h
      exact ih _ _ h

theorem probeSelect_none_elim (chain : Chain) (target : Int) :
    ∀ l, probeSelect chain target l none iMAX = none →
      ∀ s t, s ∈ l → chain s = BTR.avail t →
        t = target ∨ iMAX.natAbs ≤ (t - target).natAbs := by
  intro l
  induction l with
  | nil =>
    intro _ s t hs _
    simp at hs
  | cons a rest ih =>
    intro h s t hs hc
    cases ha : chain a with
    | avail t0 =>
      simp only [probeSelect, ha] at h
      by_cases g1 : t0 - target < 0 ∧ (t0 - target).natAbs < iMAX.natAbs
      · rw [if_pos g1] at h
        exact absurd h (probeSelect_some_ne_none chain target rest _ _)
      · rw [if_neg g1] at h
        by_cases g2 : 0 < iMAX ∧ 0 < t0 - target ∧ t0 - target < iMAX
        · rw [if_pos g2] at h
          exact absurd h (probeSelect_some_ne_none chain target rest _ _)
        · rw [if_neg g2] at h
          rcases List.mem_cons.mp hs with rfl | hmem
          · have he2 : t = t0 := BTR.avail.inj (hc.symm.trans ha)
            have hiv : iMAX = 9223372036854775807 := rfl
            omega
          · exact ih h s t hmem hc
    | missing =>
      simp only [probeSelect, ha] at h
      rcases List.mem_cons.mp hs with rfl | hmem
      · rw [hc] at ha
        exact BTR.noConfusion ha
      · exact ih h s t hmem hc
    | error =>
      simp only [probeSelect, ha] at h
      rcases List.mem_cons.mp hs with rfl | hmem
      · rw [hc] at ha
        exact BTR.noConfusion ha
      · exact ih h s t hmem hc

theorem probeSelect_none_intro (chain : Chain) (target : Int) :
    ∀ l, (∀ s t, s ∈ l → chain s = BTR.avail t →
        t = target ∨ iMAX.natAbs ≤ (t - target).natAbs) →
      probeSelect chain target l none iMAX = none := by
  intro l
  induction l with
  | nil =>
    intro _
    simp [probeSelect]
  | cons a rest ih =>
    intro hall
    cases ha : chain a with
    | avail t0 =>
      have ht0 := hall a t0 (List.mem_cons_self a rest) ha
      have hiv : iMAX = 9223372036854775807 := rfl
      simp only [probeSelect, ha]
      rw [if_neg (by omega :
            ¬ (t0 - target < 0 ∧ (t0 - target).natAbs < iMAX.natAbs)),
          if_neg (by omega :
            ¬ (0 < iMAX ∧ 0 < t0 - target ∧ t0 - target < iMAX))]
      exact ih fun s t hs hc => hall s t (List.mem_cons_of_mem a hs) hc
    | missing =>
      simp only [probeSelect, ha]
      exact ih fun s t hs hc => hall s t (List.mem_cons_of_mem a hs) hc
    | error =>
      simp only [probeSelect, ha]
      exact ih fun s t hs hc => hall s t (List.mem_cons_of_mem a hs) hc

/-- Claim C5 (amended): the Neighbor Probe selects only probed slots
whose time differs from the target — an exact-target probed slot
satisfies neither selection arm and is never selected — and it returns
`None` exactly when every probed slot is absent, erroring, or reports a
time equal to the target or at least `i64::MAX` away from it (the
initial `best_time_diff` sentinel is compared strictly, so such slots
are also never selected).  Unlike the resolver tie-break, an
after-target completion reached while no candidate is held yet is
adopted. -/
theorem C5_amended_probe_selection (chain : Chain) (center : Nat)
    (target : Int) :
    (∀ s t, find_nearby_slot_with_timestamp_parallel chain center target
        = some (s, t) →
      s ∈ probeSlots center ∧ chain s = BTR.avail t ∧ t ≠ target) ∧
    (find_nearby_slot_with_timestamp_parallel chain center target = none ↔
      (∀ s t, s ∈ probeSlots center → chain s = BTR.avail t →
        t = target ∨ iMAX.natAbs ≤ (t - target).natAbs)) ∧
    (∀ (s : Nat) (t : Int) (rest : List Nat), chain s = BTR.avail t →
      0 < t - target → t - target < iMAX →
      probeSelect chain target (s :: rest) none iMAX =
        probeSelect chain target rest (some (s, t)) (t - target)) := by
  have hiv : iMAX = 9223372036854775807 := rfl
  refine ⟨fun s t h => ⟨(find_nearby_sound chain center target s t h).2.2,
      (find_nearby_sound chain center target s t h).1,
      (find_nearby_sound chain center target s t h).2.1⟩,
    ⟨fun h => ?_, fun h => ?_⟩, fun s t rest hc hgt hlt => ?_⟩
  · simp only [find_nearby_slot_with_timestamp_parallel] at h
    exact fun s t hs hc =>
      probeSelect_none_elim chain target (probeSlots center) h s t hs hc
  · simp only [find_nearby_slot_with_timestamp_parallel]
    exact probeSelect_none_intro chain target (probeSlots center) h
  · simp only [probeSelect, hc]
    rw [if_neg (by omega :
          ¬ (t - target < 0 ∧ (t - target).natAbs < iMAX.natAbs)),
        if_pos ⟨by omega, hgt, hlt⟩]

/-- Witness for the amended C5: an all-absent neighbourhood yields
`None` via the backward direction of the characterization, and an
after-target completion (slot 9, time 200, target 100) is adopted from
the empty-candidate state. -/
theorem C5_amended_witness :
    find_nearby_slot_with_timestamp_parallel (fun _ => BTR.missing) 5 100
      = none ∧
    probeSelect chainG 100 (9 :: []) none iMAX =
      probeSelect chainG 100 [] (some (9, 200)) (200 - 100) :=
  ⟨((C5_amended_probe_selection (fun _ => BTR.missing) 5 100).2.1).mpr
      (fun _ t _ h => BTR.noConfusion h),
   (C5_amended_probe_selection chainG 5 100).2.2 9 200 [] (by decide)
     (by decide) (by decide)⟩

/-- Claim C6 counterexample: from the bootstrap window for current slot 5
(state `⟨low 0, high 5⟩`), one iteration with an absent midpoint and a
probe hit at slot 9 (time 200 > target 100) sets `high = 9 - 1 = 8 > 5`:
the window grows, refuting "high never increases / the interval strictly
shrinks". -/
theorem C6_counterexample :
    searchStep chainG 100 ⟨0, 5, 0, iMAX⟩ = StepRes.next ⟨0, 8, 0, iMAX⟩ ∧
    (5:Nat) < 8 := by
  decide

/-- Claim C6 (amended): updates derived from a present, non-exact,
nonzero midpoint do shrink the window monotonically (low never
decreases, high never increases, the slot count `high + 1 - low`
strictly decreases); the monotonicity claim fails only for
Neighbor-Probe-derived updates (which may move either bound outward by
up to `maxOffset`) and for the wrapping `high = 0 - 1` update. -/
theorem C6_amended_present_midpoint_shrinks (chain : Chain) (target : Int)
    (st : SearchState) (t : Int) (st2 : SearchState)
    (hlh : st.low ≤ st.high) (hm : chain (midOf st) = BTR.avail t)
    (hne : t ≠ target) (hnz : 0 < midOf st ∨ t < target)
    (hstep : searchStep chain target st = .next st2) :
    st.low ≤ st2.low ∧ st2.high ≤ st.high ∧
      st2.high + 1 - st2.low < st.high + 1 - st.low := by
  have hmid : st.low ≤ midOf st ∧ midOf st ≤ st.high := by
    unfold midOf
    omega
  by_cases hlt : t < target
  · rw [searchStep_eq_avail_lt hlh hm hne hlt] at hstep
    cases hstep
    exact ⟨by show st.low ≤ midOf st + 1; omega,
      by show st.high ≤ st.high; omega,
      by show st.high + 1 - (midOf st + 1) < st.high + 1 - st.low; omega⟩
  · rw [searchStep_eq_avail_gt hlh hm hne hlt] at hstep
    cases hstep
    have h0 : 0 < midOf st := hnz.resolve_right hlt
    have hw : wsub1 (midOf st) = midOf st - 1 := by
      rw [wsub1, if_neg (by omega : ¬ midOf st = 0)]
    exact ⟨le_refl _,
      by show wsub1 (midOf st) ≤ st.high; omega,
      by show wsub1 (midOf st) + 1 - st.low < st.high + 1 - st.low; omega⟩

/-- Witness for the amended C6: a present-midpoint iteration on `chainW`
shrinks the window from `[1,3]` to `[3,3]`. -/
theorem C6_amended_witness :
    searchStep chainW 20 ⟨1, 3, 0, iMAX⟩ = StepRes.next ⟨3, 3, 2, -8⟩ ∧
    (1 ≤ 3 ∧ 3 ≤ 3 ∧ 3 + 1 - 3 < 3 + 1 - 1) :=
  ⟨by decide,
   C6_amended_present_midpoint_shrinks chainW 20 ⟨1, 3, 0, iMAX⟩ 12
     ⟨3, 3, 2, -8⟩ (by decide) (by decide) (by decide)
     (Or.inr (by decide)) (by decide)⟩

/-! ### Claim C4: the NotFound condition -/

theorem rewindPhase_is_found (chain : Chain) (target : Int) (c : Nat)
    (cd : Int) : ∃ s, rewindPhase chain target c cd = SR.found s := by
  rw [rewindPhase]
  split_ifs with hpos
  · cases hrw : rewindFrom chain target c with
    | some s => exact ⟨s, by simp only [hrw]⟩
    | none => exact ⟨c, by simp only [hrw]⟩
  · exact ⟨c, rfl⟩

theorem finishSearch_found_of_ne (chain : Chain) (target : Int) (c : Nat)
    (cd : Int) (hc0 : c ≠ 0) :
    ∃ s, finishSearch chain target c cd = SR.found s := by
  rw [finishSearch, if_neg hc0]
  cases hcc : chain c with
  | avail t =>
    simp only [hcc]
    by_cases he : t = target
    · rw [if_pos he]
      exact ⟨_, rfl⟩
    · rw [if_neg he]
      exact rewindPhase_is_found chain target c cd
  | missing =>
    simp only [hcc]
    exact rewindPhase_is_found chain target c cd
  | error =>
    simp only [hcc]
    exact rewindPhase_is_found chain target c cd

/-- Claim C4 counterexample: on `chainC4` (slot 0: time 50, slot 1:
time 200, bootstrap slot 1) with target 100, slot 0 is observed as a
usable candidate (time 50 ≤ 100), yet the resolver fails with NotFound —
because the final best candidate is tested with the sentinel
`closest_slot == 0`, not with "no usable candidate was observed". -/
theorem C4_counterexample :
    get_slot_by_timestamp_optimized chainC4 1 100 10 = SR.notFound ∧
    chainC4 0 = BTR.avail 50 ∧ (50:Int) ≤ 100 := by
  decide

/-- Claim C4 (amended): the post-loop phase of the resolver fails with
NotFound exactly when the recorded best-candidate slot *number* is 0 —
which also fires when slot 0 itself was a genuine candidate; in every
other case a slot is returned, and in particular a backward rewind that
reaches slot 0 without success returns the after-target best candidate
rather than failing. -/
theorem C4_amended_notfound_iff_zero_candidate (chain : Chain)
    (target : Int) (c : Nat) (cd : Int) :
    (finishSearch chain target c cd = SR.notFound ↔ c = 0) ∧
    (c ≠ 0 → ∃ s, finishSearch chain target c cd = SR.found s) ∧
    (c ≠ 0 → (∀ t, chain c = BTR.avail t → t ≠ target) → 0 < cd →
      rewindFrom chain target c = none →
      finishSearch chain target c cd = SR.found c) := by
  refine ⟨⟨fun h => ?_, fun h => ?_⟩,
    fun hc0 => finishSearch_found_of_ne chain target c cd hc0,
    fun hc0 hnx hpos hrw => ?_⟩
  · by_contra hc0
    obtain ⟨s, hs⟩ := finishSearch_found_of_ne chain target c cd hc0
    rw [hs] at h
    exact SR.noConfusion h
  · rw [finishSearch, if_pos h]
  · rw [finishSearch, if_neg hc0]
    cases hcc : chain c with
    | avail t =>
      simp only [hcc]
      rw [if_neg (hnx t hcc), rewindPhase, if_pos hpos, hrw]
    | missing =>
      simp only [hcc]
      rw [rewindPhase, if_pos hpos, hrw]
    | error =>
      simp only [hcc]
      rw [rewindPhase, if_pos hpos, hrw]

/-- Witness for the amended C4: NotFound with candidate slot 0; a rewind
that exhausts (all of slots 2, 1, 0 absent on `chainC5` for target 50)
still returns the best candidate slot 3. -/
theorem C4_amended_witness :
    finishSearch chainC5 50 0 5 = SR.notFound ∧
    finishSearch chainC5 50 3 5 = SR.found 3 :=
  ⟨(C4_amended_notfound_iff_zero_candidate chainC5 50 0 5).1.mpr rfl,
   (C4_amended_notfound_iff_zero_candidate chainC5 50 3 5).2.2 (by decide)
     (fun t h => by simp [chainC5] at h) (by decide) (by decide)⟩

/-- Claim C8: `get_block_time` maps a present result to its value, a
missing result with upstream error code −32009 to `None` (not an
error), and any other upstream error code to an error; in the search
loop a per-slot error only advances `low` past the midpoint (the search
continues, it is never aborted), and a `None` for which the triggered
Neighbor Probe also finds nothing advances `low` the same way. -/
theorem C8_block_time_translation :
    (∀ r : RpcReply, r.result = none → r.errorCode = some (-32009) →
      get_block_time r = BTR.missing) ∧
    (∀ (r : RpcReply) (c : Int), r.result = none → r.errorCode = some c →
      c ≠ -32009 → get_block_time r = BTR.error) ∧
    (∀ (r : RpcReply) (t : Int), r.result = some (some t) →
      get_block_time r = BTR.avail t) ∧
    (∀ (net : Nat → RpcReply) (target : Int) (st : SearchState),
      st.low ≤ st.high →
      get_block_time (net (midOf st)) = BTR.error →
      searchStep (fun s2 => get_block_time (net s2)) target st =
        .next ⟨midOf st + 1, st.high, st.closest, st.cdiff⟩) ∧
    (∀ (net : Nat → RpcReply) (target : Int) (st : SearchState),
      st.low ≤ st.high →
      get_block_time (net (midOf st)) = BTR.missing →
      find_nearby_slot_with_timestamp_parallel
        (fun s2 => get_block_time (net s2)) (midOf st) target = none →
      searchStep (fun s2 => get_block_time (net s2)) target st =
        .next ⟨midOf st + 1, st.high, st.closest, st.cdiff⟩) := by
  refine ⟨fun r h1 h2 => ?_, fun r c h1 h2 h3 => ?_, fun r t h1 => ?_,
    fun net target st hlh herr => ?_, fun net target st hlh hmiss hnone => ?_⟩
  · simp [get_block_time, h1, h2]
  · simp [get_block_time, h1, h2, h3]
  · simp [get_block_time, h1]
  · exact @searchStep_eq_error (fun s2 => get_block_time (net s2))
      target st hlh herr
  · exact @searchStep_eq_missing_none (fun s2 => get_block_time (net s2))
      target st hlh hmiss hnone

/-- Witness for C8 at concrete replies and a concrete erroring step. -/
theorem C8_witness :
    get_block_time ⟨none, some (-32009)⟩ = BTR.missing ∧
    get_block_time ⟨none, some 7⟩ = BTR.error ∧
    get_block_time ⟨some (some 42), none⟩ = BTR.avail 42 ∧
    searchStep
        (fun s2 => get_block_time ((fun _ => (⟨none, some 7⟩ : RpcReply)) s2))
        50 ⟨0, 4, 0, iMAX⟩ = StepRes.next ⟨3, 4, 0, iMAX⟩ :=
  ⟨C8_block_time_translation.1 ⟨none, some (-32009)⟩ rfl rfl,
   C8_block_time_translation.2.1 ⟨none, some 7⟩ 7 rfl rfl (by decide),
   C8_block_time_translation.2.2.1 ⟨some (some 42), none⟩ 42 rfl,
   C8_block_time_translation.2.2.2.1 (fun _ => (⟨none, some 7⟩ : RpcReply))
     50 ⟨0, 4, 0, iMAX⟩ (by decide) (by decide)⟩

/-! ### Claim C10: the u64 underflow at slot 0 -/

/-- Claim C10 counterexample: with current slot 0 whose time 10 exceeds
the target 5, the very first iteration performs `high = mid - 1` with
`mid = 0`, wrapping `high` to `2^64 − 1` — the subtraction is executed
with a zero decrement operand. -/
theorem C10_counterexample :
    searchStep chainC10 5 ⟨0, 0, 0, iMAX⟩ =
      StepRes.next ⟨0, U64MOD - 1, 0, iMAX⟩ ∧
    chainC10 0 = BTR.avail 10 ∧ (5:Int) < 10 ∧ U64MOD - 1 = 2 ^ 64 - 1 := by
  decide

/-- Claim C10 (amended): from any `u64`-valid window, an iteration can
wrap `high` to `2^64 − 1` only by decrementing slot number 0, which
requires slot 0 to report a timestamp strictly greater than the target
(directly at the midpoint, or through the Neighbor Probe); with any
other slot-0 behaviour the two window subtractions never underflow. -/
theorem C10_amended_wrap_only_from_slot0 (chain : Chain) (target : Int)
    (st st2 : SearchState) (hlh : st.low ≤ st.high)
    (hbound : st.high + 21 < U64MOD)
    (hstep : searchStep chain target st = .next st2)
    (hwrap : U64MOD - 1 ≤ st2.high) :
    ∃ t, chain 0 = BTR.avail t ∧ target < t := by
  have hmid : st.low ≤ midOf st ∧ midOf st ≤ st.high := by
    unfold midOf
    omega
  cases hm : chain (midOf st) with
  | avail t =>
    by_cases he : t = target
    · rw [searchStep_eq_avail_eq hlh hm he] at hstep
      exact StepRes.noConfusion hstep
    · by_cases hlt : t < target
      · rw [searchStep_eq_avail_lt hlh hm he hlt] at hstep
        cases hstep
        have hw2 : U64MOD - 1 ≤ st.high := hwrap
        omega
      · rw [searchStep_eq_avail_gt hlh hm he hlt] at hstep
        cases hstep
        have hw2 : U64MOD - 1 ≤ wsub1 (midOf st) := hwrap
        by_cases hm0 : midOf st = 0
        · exact ⟨t, hm0 ▸ hm, by omega⟩
        · rw [wsub1, if_neg hm0] at hw2
          omega
  | missing =>
    cases hp : find_nearby_slot_with_timestamp_parallel chain (midOf st)
        target with
    | none =>
      rw [searchStep_eq_missing_none hlh hm hp] at hstep
      cases hstep
      have hw2 : U64MOD - 1 ≤ st.high := hwrap
      omega
    | some p =>
      obtain ⟨fs, ft⟩ := p
      by_cases he : ft = target
      · rw [searchStep_eq_missing_some_eq hlh hm hp he] at hstep
        exact StepRes.noConfusion hstep
      · by_cases hlt : ft < target
        · rw [searchStep_eq_missing_some_lt hlh hm hp he hlt] at hstep
          cases hstep
          have hw2 : U64MOD - 1 ≤ st.high := hwrap
          omega
        · rw [searchStep_eq_missing_some_gt hlh hm hp he hlt] at hstep
          cases hstep
          have hw2 : U64MOD - 1 ≤ wsub1 fs := hwrap
          by_cases hf0 : fs = 0
          · refine ⟨ft, ?_, by omega⟩
            rw [← hf0]
            exact (find_nearby_sound chain (midOf st) target fs ft hp).1
          · exfalso
            have hfle : fs ≤ midOf st + 20 :=
              mem_probeSlotsAux_le (midOf st) 20 fs
                (find_nearby_sound chain (midOf st) target fs ft hp).2.2
            rw [wsub1, if_neg hf0] at hw2
            omega
  | error =>
    rw [searchStep_eq_error hlh hm] at hstep
    cases hstep
    have hw2 : U64MOD - 1 ≤ st.high := hwrap
    omega

/-- Witness for the amended C10: the wrapping step of the C10
counterexample indeed implies slot 0 carries a time above the target. -/
theorem C10_amended_witness :
    ∃ t, chainC10 0 = BTR.avail t ∧ (5:Int) < t :=
  C10_amended_wrap_only_from_slot0 chainC10 5 ⟨0, 0, 0, iMAX⟩
    ⟨0, U64MOD - 1, 0, iMAX⟩ (by decide) (by decide) (by decide) (by decide)

/-! ### Claim C2: exact matches and the Highest-Match Scanner -/

theorem scanGo_spec (chain : Chain) (target : Int)
    (hmono : ∀ a b ta tb, a ≤ b → chain a = BTR.avail ta →
      chain b = BTR.avail tb → ta ≤ tb) :
    ∀ (fuel highest cur : Nat),
      chain highest = BTR.avail target →
      highest < cur →
      (∀ s, s < cur → chain s = BTR.avail target → s ≤ highest) →
      chain (scanGo chain target fuel highest cur) = BTR.avail target ∧
      highest ≤ scanGo chain target fuel highest cur ∧
      (scanGo chain target fuel highest cur = highest ∨
        scanGo chain target fuel highest cur < cur + fuel) ∧
      (∀ s, s < cur + fuel → chain s = BTR.avail target →
        s ≤ scanGo chain target fuel highest cur) := by
  intro fuel
  induction fuel with
  | zero =>
    intro highest cur hh hc hbelow
    simp only [scanGo]
    exact ⟨hh, le_refl _, Or.inl trivial, fun s hs hcs => hbelow s (by omega) hcs⟩
  | succ fuel ih =>
    intro highest cur hh hc hbelow
    cases hcur : chain cur with
    | avail t =>
      by_cases h1 : t = target
      · simp only [scanGo, hcur, if_pos h1]
        have hcur2 : chain cur = BTR.avail target := h1 ▸ hcur
        have hb2 : ∀ s, s < cur + 1 → chain s = BTR.avail target →
            s ≤ cur := by
          intro s hs _
          omega
        obtain ⟨ha, hb, hcr, hd⟩ := ih cur (cur + 1) hcur2 (by omega) hb2
        refine ⟨ha, by omega, ?_, fun s hs hcs => hd s (by omega) hcs⟩
        rcases hcr with hcr | hcr
        · right
          omega
        · right
          omega
      · by_cases h2 : t > target
        · simp only [scanGo, hcur, if_neg h1, if_pos h2]
          refine ⟨hh, le_refl _, Or.inl trivial, ?_⟩
          intro s hs hcs
          by_cases hscur : s < cur
          · exact hbelow s hscur hcs
          · exfalso
            have := hmono cur s t target (by omega) hcur hcs
            omega
        · simp only [scanGo, hcur, if_neg h1, if_neg h2]
          have hb2 : ∀ s, s < cur + 1 → chain s = BTR.avail target →
              s ≤ highest := by
            intro s hs hcs
            by_cases hscur : s < cur
            · exact hbelow s hscur hcs
            · exfalso
              have hse : s = cur := by omega
              subst hse
              have hco := hcur.symm.trans hcs
              injection hco with he2
              exact h1 he2
          obtain ⟨ha, hb, hcr, hd⟩ := ih highest (cur + 1) hh (by omega) hb2
          refine ⟨ha, hb, ?_, fun s hs hcs => hd s (by omega) hcs⟩
          rcases hcr with hcr | hcr
          · exact Or.inl hcr
          · right
            omega
    | missing =>
      simp only [scanGo, hcur]
      have hb2 : ∀ s, s < cur + 1 → chain s = BTR.avail target →
          s ≤ highest := by
        intro s hs hcs
        by_cases hscur : s < cur
        · exact hbelow s hscur hcs
        · exfalso
          have hse : s = cur := by omega
          subst hse
          exact BTR.noConfusion (hcur.symm.trans hcs)
      obtain ⟨ha, hb, hcr, hd⟩ := ih highest (cur + 1) hh (by omega) hb2
      refine ⟨ha, hb, ?_, fun s hs hcs => hd s (by omega) hcs⟩
      rcases hcr with hcr | hcr
      · exact Or.inl hcr
      · right
        omega
    | error =>
      simp only [scanGo, hcur]
      have hb2 : ∀ s, s < cur + 1 → chain s = BTR.avail target →
          s ≤ highest := by
        intro s hs hcs
        by_cases hscur : s < cur
        · exact hbelow s hscur hcs
        · exfalso
          have hse : s = cur := by omega
          subst hse
          exact BTR.noConfusion (hcur.symm.trans hcs)
      obtain ⟨ha, hb, hcr, hd⟩ := ih highest (cur + 1) hh (by omega) hb2
      refine ⟨ha, hb, ?_, fun s hs hcs => hd s (by omega) hcs⟩
      rcases hcr with hcr | hcr
      · exact Or.inl hcr
      · right
        omega

theorem chainF_mono : ∀ a b ta tb, a ≤ b → chainF a = BTR.avail ta →
    chainF b = BTR.avail tb → ta ≤ tb := by
  intro a b ta tb hab ha hb
  simp only [chainF] at ha hb
  split_ifs at ha hb <;>
    first
      | exact BTR.noConfusion ha
      | exact BTR.noConfusion hb
      | (injection ha with ha2
         injection hb with hb2
         omega)

theorem chainB_mono : ∀ a b ta tb, a ≤ b → chainB a = BTR.avail ta →
    chainB b = BTR.avail tb → ta ≤ tb := by
  intro a b ta tb hab ha hb
  simp only [chainB] at ha hb
  split_ifs at ha hb <;>
    first
      | exact BTR.noConfusion ha
      | exact BTR.noConfusion hb
      | (injection ha with ha2
         injection hb with hb2
         omega)

/-- Claim C2 counterexample: `chainF` is monotone, slot 90 (≤ the
bootstrap bound 140) has block time exactly equal to the target 100, yet
the resolver returns slot 70, whose time is 10 — not the highest
exact-match slot: the search never observes the match (the probe
discards exact matches and absent midpoints advance `low` past it). -/
theorem C2_counterexample :
    (∀ a b ta tb, a ≤ b → chainF a = BTR.avail ta →
      chainF b = BTR.avail tb → ta ≤ tb) ∧
    chainF 90 = BTR.avail 100 ∧ (90:Nat) ≤ 140 ∧
    get_slot_by_timestamp_optimized chainF 140 100 20 = SR.found 70 ∧
    chainF 70 = BTR.avail 10 ∧ (70:Nat) ≠ 90 :=
  ⟨chainF_mono, by decide, by decide, by decide, by decide, by decide⟩

/-- Claim C2 (amended): whenever the resolver delegates to the
Highest-Match Scanner at a slot whose time equals the target (the only
way exact matches are canonicalised), the result of the scanner is, for a
monotone chain, exactly the highest-numbered slot with that time among
the slots within the scan budget (`start .. start + 100`); but the
resolver does not guarantee such a delegation happens whenever an
exact-match slot exists below the upper bound, and can instead return a
slot with a different time. -/
theorem C2_amended_scanner_highest (chain : Chain) (start : Nat)
    (target : Int)
    (hmono : ∀ a b ta tb, a ≤ b → chain a = BTR.avail ta →
      chain b = BTR.avail tb → ta ≤ tb)
    (hstart : chain start = BTR.avail target) :
    chain (find_highest_slot_with_timestamp chain start target)
      = BTR.avail target ∧
    start ≤ find_highest_slot_with_timestamp chain start target ∧
    find_highest_slot_with_timestamp chain start target ≤ start + 100 ∧
    (∀ s, s ≤ start + 100 → chain s = BTR.avail target →
      s ≤ find_highest_slot_with_timestamp chain start target) := by
  have h := scanGo_spec chain target hmono 100 start (start + 1) hstart
    (by omega) (fun s hs _ => by omega)
  rw [find_highest_slot_with_timestamp]
  obtain ⟨ha, hb, hcr, hd⟩ := h
  refine ⟨ha, hb, ?_, fun s hs hcs => hd s (by omega) hcs⟩
  rcases hcr with hcr | hcr
  · omega
  · omega

/-- Witness for the amended C2: Scenario B — slots 700–705 share time
2000; from a delegation at slot 700 the scanner returns 705, the highest
slot with that exact time within the budget. -/
theorem C2_amended_witness :
    find_highest_slot_with_timestamp chainB 700 2000 = 705 ∧
    (chainB (find_highest_slot_with_timestamp chainB 700 2000)
        = BTR.avail 2000 ∧
      700 ≤ find_highest_slot_with_timestamp chainB 700 2000 ∧
      find_highest_slot_with_timestamp chainB 700 2000 ≤ 700 + 100 ∧
      (∀ s, s ≤ 700 + 100 → chainB s = BTR.avail 2000 →
        s ≤ find_highest_slot_with_timestamp chainB 700 2000)) :=
  ⟨by decide, C2_amended_scanner_highest chainB 700 2000 chainB_mono
    (by decide)⟩

/-! ### Claim C9: monotonicity in the target -/

theorem scanGo_break (chain : Chain) (target : Int) (fuel highest cur : Nat)
    (t : Int) (hc : chain cur = BTR.avail t) (hgt : target < t) :
    scanGo chain target (fuel + 1) highest cur = highest := by
  simp only [scanGo, hc]
  rw [if_neg (by omega : ¬ t = target), if_pos (by omega : t > target)]

theorem find_highest_strict (chain : Chain) (start : Nat) (target : Int)
    (t2 : Int) (hnext : chain (start + 1) = BTR.avail t2) (hgt : target < t2) :
    find_highest_slot_with_timestamp chain start target = start := by
  rw [find_highest_slot_with_timestamp]
  have h100 : (100 : Nat) = 99 + 1 := rfl
  rw [h100]
  exact scanGo_break chain target 99 start (start + 1) t2 hnext hgt

theorem rewindFrom_full_spec (f : Nat → Int) (target : Int)
    (hf : ∀ a b : Nat, a < b → f a < f b) :
    ∀ n, (∃ g, g < n ∧ f g ≤ target) →
      ∃ r, rewindFrom (fullChain f) target n = some r ∧ f r ≤ target ∧
        (∀ s, s < n → f s ≤ target → s ≤ r) := by
  intro n
  induction n with
  | zero =>
    intro hex
    obtain ⟨g, hg, _⟩ := hex
    omega
  | succ m ih =>
    intro hex
    obtain ⟨g, hg, hgle⟩ := hex
    by_cases h1 : f m = target
    · refine ⟨m, ?_, by omega, fun s hs _ => by omega⟩
      simp only [rewindFrom, fullChain]
      rw [if_pos h1]
      rw [find_highest_strict (fullChain f) m target (f (m + 1)) rfl
        (by have := hf m (m + 1) (by omega); omega)]
    · by_cases h2 : f m < target
      · refine ⟨m, ?_, by omega, fun s hs _ => by omega⟩
        simp only [rewindFrom, fullChain]
        rw [if_neg h1, if_pos h2]
      · have hgm : g ≠ m := by
          intro he
          subst he
          omega
        obtain ⟨r, hr, hrle, hrub⟩ := ih ⟨g, by omega, hgle⟩
        refine ⟨r, ?_, hrle, ?_⟩
        · simp only [rewindFrom, fullChain]
          rw [if_neg h1, if_neg h2]
          exact hr
        · intro s hs hsle
          have hsm : s ≠ m := by
            intro he
            subst he
            omega
          exact hrub s (by omega) hsle

theorem searchLoop_full_char (f : Nat → Int) (target : Int)
    (hf : ∀ a b : Nat, a < b → f a < f b) :
    ∀ (fuel : Nat) (st : SearchState) (r : Nat),
      (∀ s, f s ≤ target → s ≤ st.high) →
      ((st.closest = 0 ∧ st.cdiff = iMAX) ∨
        (st.cdiff = f st.closest - target ∧ st.cdiff ≠ 0 ∧
          (st.cdiff < 0 → st.low = st.closest + 1) ∧
          (0 < st.cdiff → ∃ b, b < st.closest ∧ f b < target))) →
      searchLoop (fullChain f) target fuel st = .found r →
      f r ≤ target ∧ ∀ s, f s ≤ target → s ≤ r := by
  intro fuel
  induction fuel with
  | zero =>
    intro st r _ _ h
    exact SR.noConfusion h
  | succ fuel ih =>
    intro st r hub hinv h
    rw [searchLoop] at h
    by_cases hlh : st.low ≤ st.high
    · have hmid : st.low ≤ midOf st ∧ midOf st ≤ st.high := by
        unfold midOf
        omega
      have hcm : fullChain f (midOf st) = BTR.avail (f (midOf st)) := rfl
      by_cases he : f (midOf st) = target
      · rw [searchStep_eq_avail_eq hlh hcm he] at h
        injection h with hr
        subst hr
        rw [find_highest_strict (fullChain f) (midOf st) target
          (f (midOf st + 1)) rfl
          (by have := hf (midOf st) (midOf st + 1) (by omega); omega)]
        refine ⟨by omega, fun s hsle => ?_⟩
        by_contra hgt
        push_neg at hgt
        have := hf (midOf st) s hgt
        omega
      · by_cases hlt : f (midOf st) < target
        · rw [searchStep_eq_avail_lt hlh hcm he hlt] at h
          have hcb : choose_better st.closest st.cdiff (midOf st)
              (f (midOf st) - target) = (midOf st, f (midOf st) - target) := by
            have hdneg : f (midOf st) - target < 0 := by omega
            rcases hinv with ⟨hc0, hcd⟩ | ⟨hcd, hcdne, hlow, hposb⟩
            · unfold choose_better
              rw [if_pos ⟨hdneg, Or.inr (by rw [hcd]; decide)⟩]
            · by_cases hsign : 0 < st.cdiff
              · unfold choose_better
                rw [if_pos ⟨hdneg, Or.inr hsign⟩]
              · have hneg : st.cdiff < 0 := by omega
                have hlow2 := hlow hneg
                have hcl : st.closest < midOf st := by omega
                have hfl := hf st.closest (midOf st) hcl
                unfold choose_better
                rw [if_pos ⟨hdneg, Or.inl (by omega)⟩]
          rw [hcb] at h
          refine ih ⟨midOf st + 1, st.high, midOf st, f (midOf st) - target⟩ r
            (fun s hs => hub s hs) (Or.inr ⟨rfl, ?_, ?_, ?_⟩) h
          · show f (midOf st) - target ≠ 0
            omega
          · intro _
            rfl
          · intro hpos2
            exfalso
            have hpos3 : (0:Int) < f (midOf st) - target := hpos2
            omega
        · have hgt : target < f (midOf st) := by omega
          rw [searchStep_eq_avail_gt hlh hcm he hlt] at h
          have hub2 : ∀ s, f s ≤ target → s ≤ wsub1 (midOf st) := by
            intro s hsle
            have hslt : s < midOf st := by
              by_contra hge2
              push_neg at hge2
              rcases Nat.eq_or_lt_of_le hge2 with he2 | hlt2
              · rw [← he2] at hsle
                omega
              · have := hf (midOf st) s hlt2
                omega
            rw [wsub1]
            split_ifs with h0
            · omega
            · omega
          by_cases hacc : 0 < f (midOf st) - target ∧
              f (midOf st) - target < (st.cdiff.natAbs : Int) ∧ st.cdiff < 0
          · have hcb : choose_better st.closest st.cdiff (midOf st)
                (f (midOf st) - target)
                = (midOf st, f (midOf st) - target) := by
              unfold choose_better
              rw [if_neg (by omega :
                ¬ (f (midOf st) - target < 0 ∧
                  ((f (midOf st) - target).natAbs < st.cdiff.natAbs ∨
                    0 < st.cdiff))), if_pos hacc]
            rw [hcb] at h
            have hclb : st.closest < midOf st ∧ f st.closest < target := by
              rcases hinv with ⟨hc0, hcd⟩ | ⟨hcd, hcdne, hlow, hposb⟩
              · exfalso
                have := hacc.2.2
                rw [hcd] at this
                exact absurd this (by decide)
              · have hneg := hacc.2.2
                have hlow2 := hlow hneg
                constructor
                · omega
                · omega
            refine ih ⟨st.low, wsub1 (midOf st), midOf st,
                f (midOf st) - target⟩ r (fun s hs => hub2 s hs)
              (Or.inr ⟨rfl, ?_, ?_, ?_⟩) h
            · show f (midOf st) - target ≠ 0
              omega
            · intro hneg2
              exfalso
              have hneg3 : f (midOf st) - target < 0 := hneg2
              omega
            · intro _
              exact ⟨st.closest, hclb.1, hclb.2⟩
          · have hcb : choose_better st.closest st.cdiff (midOf st)
                (f (midOf st) - target) = (st.closest, st.cdiff) := by
              unfold choose_better
              rw [if_neg (by omega :
                ¬ (f (midOf st) - target < 0 ∧
                  ((f (midOf st) - target).natAbs < st.cdiff.natAbs ∨
                    0 < st.cdiff))), if_neg hacc]
            rw [hcb] at h
            refine ih ⟨st.low, wsub1 (midOf st), st.closest, st.cdiff⟩ r
              (fun s hs => hub2 s hs) ?_ h
            rcases hinv with ⟨hc0, hcd⟩ | ⟨hcd, hcdne, hlow, hposb⟩
            · exact Or.inl ⟨hc0, hcd⟩
            · exact Or.inr ⟨hcd, hcdne, fun hneg2 => hlow hneg2,
                fun hp => hposb hp⟩
    · rw [searchStep_eq_done hlh] at h
      replace h : finishSearch (fullChain f) target st.closest st.cdiff
          = SR.found r := h
      by_cases hc0 : st.closest = 0
      · rw [finishSearch, if_pos hc0] at h
        exact SR.noConfusion h
      · rcases hinv with ⟨hc02, _⟩ | ⟨hcd, hcdne, hlow, hposb⟩
        · exact absurd hc02 hc0
        · rw [finishSearch, if_neg hc0] at h
          have hcc : fullChain f st.closest = BTR.avail (f st.closest) := rfl
          simp only [hcc] at h
          rw [if_neg (by omega : ¬ f st.closest = target)] at h
          rw [rewindPhase] at h
          by_cases hpos : 0 < st.cdiff
          · rw [if_pos hpos] at h
            obtain ⟨b, hb, hble⟩ := hposb hpos
            obtain ⟨r2, hr2, hr2le, hr2ub⟩ :=
              rewindFrom_full_spec f target hf st.closest ⟨b, hb, by omega⟩
            rw [hr2] at h
            injection h with hr
            subst hr
            refine ⟨hr2le, fun s hsle => ?_⟩
            by_cases hsc : s < st.closest
            · exact hr2ub s hsc hsle
            · exfalso
              push_neg at hsc
              rcases Nat.eq_or_lt_of_le hsc with he2 | hlt2
              · rw [← he2] at hsle
                omega
              · have := hf st.closest s hlt2
                omega
          · rw [if_neg hpos] at h
            injection h with hr
            subst hr
            have hneg : st.cdiff < 0 := by omega
            refine ⟨by omega, fun s hsle => ?_⟩
            have hsh := hub s hsle
            have hl2 := hlow hneg
            omega

theorem chainH_mono : ∀ a b ta tb, a ≤ b → chainH a = BTR.avail ta →
    chainH b = BTR.avail tb → ta ≤ tb := by
  intro a b ta tb hab ha hb
  simp only [chainH] at ha hb
  split_ifs at ha hb <;>
    first
      | exact BTR.noConfusion ha
      | exact BTR.noConfusion hb
      | (injection ha with ha2
         injection hb with hb2
         omega)

/-- Claim C9 counterexample: the resolver is not monotone in the target,
even over monotone fixtures: on `chainH` (slots 70–72 at time 10, slot
90 at time 100, rest absent, bootstrap slot 140), target 10 resolves to
slot 72 but the larger target 100 resolves to the smaller slot 70 (the
exact match at slot 90 is missed). -/
theorem C9_counterexample :
    ¬ (∀ (chain : Chain) (current : Nat) (t1 t2 : Int)
        (fuel1 fuel2 r1 r2 : Nat),
        (∀ a b ta tb, a ≤ b → chain a = BTR.avail ta →
          chain b = BTR.avail tb → ta ≤ tb) →
        t1 < t2 →
        get_slot_by_timestamp_optimized chain current t1 fuel1 = .found r1 →
        get_slot_by_timestamp_optimized chain current t2 fuel2 = .found r2 →
        r1 ≤ r2) := by
  intro hclaim
  have := hclaim chainH 140 10 100 5 20 72 70 chainH_mono (by decide)
    (by decide) (by decide)
  omega

/-- Claim C9 (amended): the resolver is monotone in the target on
fully-present chains with strictly increasing block times, for targets
at or below the time of the bootstrap slot: if `t1 < t2 ≤ time(current)` and
both resolutions return slots, then `slot(t1) ≤ slot(t2)`.  (The
unamended claim fails once slots may be absent — see the
counterexample.) -/
theorem C9_amended_monotone_on_strict_full_chain (f : Nat → Int)
    (current : Nat) (t1 t2 : Int) (fuel1 fuel2 r1 r2 : Nat)
    (hf : ∀ a b : Nat, a < b → f a < f b)
    (h12 : t1 < t2) (hcur : t2 ≤ f current)
    (h1 : get_slot_by_timestamp_optimized (fullChain f) current t1 fuel1
          = .found r1)
    (h2 : get_slot_by_timestamp_optimized (fullChain f) current t2 fuel2
          = .found r2) :
    r1 ≤ r2 := by
  rw [get_slot_by_timestamp_optimized] at h1 h2
  have hub1 : ∀ s, f s ≤ t1 → s ≤ current := by
    intro s hs
    by_contra hgt
    push_neg at hgt
    have := hf current s hgt
    omega
  have hub2 : ∀ s, f s ≤ t2 → s ≤ current := by
    intro s hs
    by_contra hgt
    push_neg at hgt
    have := hf current s hgt
    omega
  have hc1 := searchLoop_full_char f t1 hf fuel1 ⟨0, current, 0, iMAX⟩ r1
    hub1 (Or.inl ⟨rfl, rfl⟩) h1
  have hc2 := searchLoop_full_char f t2 hf fuel2 ⟨0, current, 0, iMAX⟩ r2
    hub2 (Or.inl ⟨rfl, rfl⟩) h2
  exact hc2.2 r1 (by have := hc1.1; omega)

/-- Witness for the amended C9 on the strictly increasing chain with
time = slot: targets 3 < 5 resolve to slots 3 ≤ 5. -/
theorem C9_amended_witness :
    get_slot_by_timestamp_optimized idChain 10 3 20 = SR.found 3 ∧
    get_slot_by_timestamp_optimized idChain 10 5 20 = SR.found 5 ∧
    (3:Nat) ≤ 5 :=
  ⟨by decide, by decide,
   C9_amended_monotone_on_strict_full_chain (fun s => (s : Int)) 10 3 5
     20 20 3 5 (fun a b hab => by show (a:Int) < (b:Int); exact_mod_cast hab)
     (by decide)
     (by decide) (by decide) (by decide)⟩
